import Mathlib

/-!
# Verification of the `algotrader` portfolio utility

Shallow embedding of `src/main.py`:

* `OpenAIAPI.load_api_key` — reads an API key from the environment and
  asserts it is present (modelled with an abstract environment map and
  `Except` for the assertion failure).
* `BaseStockAPI.get_organized_stock_actions` — the action normalizer: scans
  a date-indexed table row by row, column by column, and collects every
  truthy cell into a dict-of-lists keyed by column name (Python dicts keep
  insertion order; `setdefault(...).append(...)` appends at the end of the
  group), returning `None` when the table is empty or no cell is truthy.
* `BaseStockAPI.create_stock_records_df` — flattens the organized dict into
  one table of `(date, value, type)` rows, group after group.
* `BaseStockAPI.print_formatted_stock_actions`, `YFActions.handle_stock_actions`,
  `YFActions.fetch_and_format_stock_info` — the printing pipeline, modelled
  as functions returning the list of printed items.
* `PortfolioManager.load_portfolio` / `check_portfolio` — the JSON loader
  (abstract file system map) and the per-ticker loop.

Python object state (`self.organized_actions`, `self.current_ticker_symbol`)
is threaded explicitly through a `BaseStockAPIState` record.  Python
truthiness of cell values is modelled by `Value.truthy`.
-/

/-- A cell value of the raw action table: Python `None`, a number
(rationals stand in for the numeric values), or a string.  Python
truthiness on these is: `None` falsy, `0` falsy, `""` falsy. -/
inductive Value where
  | vnone : Value
  | vnum : ℚ → Value
  | vstr : String → Value
deriving DecidableEq, Repr

/-- Python truthiness of a cell value, as tested by
`if action_value := row[col_name]:` in `get_organized_stock_actions`. -/
def Value.truthy : Value → Bool
  | .vnone => false
  | .vnum q => q != 0
  | .vstr s => s != ""

/-- A date index entry of the raw table (a pandas `Timestamp` day). -/
structure Date where
  year : Nat
  month : Nat
  day : Nat
deriving DecidableEq, Repr

/-- Zero-pad a numeral to two digits (`strftime` field `%m` / `%d`). -/
def pad2 (n : Nat) : String :=
  if n < 10 then "0" ++ toString n else toString n

/-- Zero-pad a numeral to four digits (`strftime` field `%Y`). -/
def pad4 (n : Nat) : String :=
  if n < 10 then "000" ++ toString n
  else if n < 100 then "00" ++ toString n
  else if n < 1000 then "0" ++ toString n
  else toString n

/-- `index.strftime('%Y-%m-%d')` from `get_organized_stock_actions`. -/
def Date.strftimeYMD (d : Date) : String :=
  pad4 d.year ++ "-" ++ pad2 d.month ++ "-" ++ pad2 d.day

/-- The raw action table returned by the provider (`ticker.actions`):
a column list and date-indexed rows; each row's cell list is aligned
positionally with `columns`, which models the DataFrame lookup
`row[col_name]` for the distinct column labels of the table. -/
structure RawActionTable where
  columns : List String
  rows : List (Date × List Value)

/-- pandas `DataFrame.empty`: true when either axis has length zero. -/
def RawActionTable.isEmpty (t : RawActionTable) : Bool :=
  t.rows.isEmpty || t.columns.isEmpty

/-- One entry of an organized group: `{'date': ..., 'value': ...}`. -/
structure ActionRecord where
  date : String
  value : Value
deriving DecidableEq, Repr

/-- The `self.organized_actions` dict: an insertion-ordered association
list from action type (column name) to its list of records. -/
abbrev OrgActions := List (String × List ActionRecord)

/-- `self.organized_actions.setdefault(col_name, []).append(rec)`:
append `r` to the group of key `k`, creating the group at the end of the
dict (insertion order) when the key is absent. -/
def setdefaultAppend (m : OrgActions) (k : String) (r : ActionRecord) : OrgActions :=
  match m with
  | [] => [(k, [r])]
  | (k', rs) :: rest =>
    if k' = k then (k', rs ++ [r]) :: rest
    else (k', rs) :: setdefaultAppend rest k r

/-- The inner loop of `get_organized_stock_actions` over one row:
`for col_name in actions.columns: if action_value := row[col_name]: ...`. -/
def insertRow (m : OrgActions) (cols : List String) (row : Date × List Value) : OrgActions :=
  (cols.zip row.2).foldl
    (fun m cv =>
      if cv.2.truthy then setdefaultAppend m cv.1 ⟨row.1.strftimeYMD, cv.2⟩ else m)
    m

/-- The double loop of `get_organized_stock_actions`, starting from the
fresh `self.organized_actions = {}`. -/
def buildOrganized (t : RawActionTable) : OrgActions :=
  t.rows.foldl (fun m row => insertRow m t.columns row) []

/-- The mutable per-object state of `BaseStockAPI`
(`self.organized_actions`, `self.current_ticker_symbol`). -/
structure BaseStockAPIState where
  organized_actions : Option OrgActions
  current_ticker_symbol : Option String
deriving Repr

/-- `BaseStockAPI.__init__`: both fields start as `None`. -/
def initBaseStockAPI : BaseStockAPIState :=
  { organized_actions := none, current_ticker_symbol := none }

/-- `BaseStockAPI.get_organized_stock_actions`: returns `None` on an empty
table; otherwise resets `self.organized_actions` to a fresh dict, fills it
from every truthy cell, and returns it, or `None` when it stayed empty
(`return self.organized_actions or None`). -/
def get_organized_stock_actions (st : BaseStockAPIState) (t : RawActionTable) :
    BaseStockAPIState × Option OrgActions :=
  if t.isEmpty then (st, none)
  else
    let m := buildOrganized t
    ({ st with organized_actions := some m }, if m.isEmpty then none else some m)

/-- A row of the records DataFrame built by `create_stock_records_df`:
columns `date`, `value` (from the record dicts) and `type` (added). -/
structure RecordRow where
  date : String
  value : Value
  type : String
deriving DecidableEq, Repr

/-- `BaseStockAPI.create_stock_records_df`: for each `(action_type, records)`
group of `self.organized_actions`, in dict order, append the group's rows
(tagged with `type`) to the accumulating DataFrame via `pd.concat`. -/
def create_stock_records_df (st : BaseStockAPIState) (actions_df : List RecordRow) :
    List RecordRow :=
  (st.organized_actions.getD []).foldl
    (fun acc kr => acc ++ kr.2.map (fun r => ⟨r.date, r.value, kr.1⟩))
    actions_df

/-- All the truthy cells of the table in row-major scan order, each as
`(column name, expected record)`.  This is the specification-side view of
the table: one pair per truthy cell, its date formatted `YYYY-MM-DD`. -/
def rowPairs (cols : List String) (row : Date × List Value) : List (String × ActionRecord) :=
  (cols.zip row.2).filterMap
    (fun cv => if cv.2.truthy then some (cv.1, ⟨row.1.strftimeYMD, cv.2⟩) else none)

/-- The truthy cells of the whole table, row-major. -/
def tablePairs (t : RawActionTable) : List (String × ActionRecord) :=
  (t.rows.map (rowPairs t.columns)).flatten

/-- Number of truthy cells of the table. -/
def numTruthyCells (t : RawActionTable) : Nat :=
  (t.rows.map (fun row => ((t.columns.zip row.2).filter (fun cv => cv.2.truthy)).length)).sum

/-- Flatten an organized dict back to tagged records, keeping group order. -/
def flattenTagged (m : OrgActions) : List (String × ActionRecord) :=
  (m.map (fun kr => kr.2.map (fun r => (kr.1, r)))).flatten

/-- Keys of a list in order of first occurrence (spec-side description of
Python dict key order under `setdefault` insertion). -/
def dedupFirst : List String → List String
  | [] => []
  | k :: rest => k :: (dedupFirst rest).filter (fun x => x ≠ k)

/-- Specification-side grouping: one group per key in first-encounter
order, each group the records of that key in scan order. -/
def groupStable (ps : List (String × ActionRecord)) : OrgActions :=
  (dedupFirst (ps.map Prod.fst)).map
    (fun k => (k, (ps.filter (fun p => p.1 = k)).map Prod.snd))

/-- An item printed to the console: a plain line, or a rendered DataFrame
whose rows carry the three selected columns in `type, date, value` order. -/
inductive Output where
  | line : String → Output
  | table : List (String × String × Value) → Output
deriving DecidableEq, Repr

/-- `BaseStockAPI.print_formatted_stock_actions`: an optional
`Ticker: ...` line when `self.current_ticker_symbol` is truthy (a
non-empty string), then the DataFrame restricted to the columns
`['type', 'date', 'value']` in that order. -/
def print_formatted_stock_actions (st : BaseStockAPIState) (actions_df : List RecordRow) :
    List Output :=
  (match st.current_ticker_symbol with
   | some s => if s != "" then [Output.line ("Ticker: " ++ s)] else []
   | none => []) ++
  [Output.table (actions_df.map (fun r => (r.type, r.date, r.value)))]

/-- Python truthiness of `get_organized_stock_actions`'s return value:
`None` is falsy, a dict is truthy iff non-empty. -/
def orgTruthy : Option OrgActions → Bool
  | none => false
  | some m => !m.isEmpty

/-- `YFActions.handle_stock_actions`: organize the ticker's raw table;
when the result is truthy, build the records DataFrame from an empty one
and print it when non-empty; otherwise print the no-actions message. -/
def handle_stock_actions (st : BaseStockAPIState) (t : RawActionTable) (ticker_symbol : String) :
    BaseStockAPIState × List Output :=
  let res := get_organized_stock_actions st t
  if orgTruthy res.2 then
    let actions_df := create_stock_records_df res.1 []
    if !actions_df.isEmpty then (res.1, print_formatted_stock_actions res.1 actions_df)
    else (res.1, [])
  else
    (res.1, [Output.line ("No actions found for ticker " ++ ticker_symbol ++ ".")])

/-- `YFActions.fetch_and_format_stock_info`: print the ticker header, make
the ticker object (the provider maps a symbol to its raw action table,
modelling `yf.Ticker(...)` followed by `.actions`), and handle its actions. -/
def fetch_and_format_stock_info (st : BaseStockAPIState)
    (provider : String → RawActionTable) (ticker_symbol : String) :
    BaseStockAPIState × List Output :=
  let res := handle_stock_actions st (provider ticker_symbol) ticker_symbol
  (res.1, Output.line ("Ticker: " ++ ticker_symbol) :: res.2)

/-- `YFinanceAPI.fetch_and_format_stock_info`: prints its own line and
delegates to the inner `YFActions` object; its own `BaseStockAPI` state
(`own`) is untouched, only the delegate's state (`yfst`) evolves. -/
def yfinance_fetch_and_format_stock_info (own yfst : BaseStockAPIState)
    (provider : String → RawActionTable) (ticker_symbol : String) :
    (BaseStockAPIState × BaseStockAPIState) × List Output :=
  let res := fetch_and_format_stock_info yfst provider ticker_symbol
  ((own, res.1),
   Output.line ("Fetching and formatting stock information for " ++ ticker_symbol) :: res.2)

/-- One portfolio entry: `{"ticker": ...}`. -/
structure PortfolioEntry where
  ticker : String
deriving DecidableEq, Repr

/-- `PortfolioManager.load_portfolio`: the file system is an abstract map
from path to the parsed JSON portfolio of an existing readable file.  On
`FileNotFoundError` the function prints the failure message and returns
`portfolio = None`; on success it prints the loaded message and returns
the parsed list.  The first component is the returned Python value
(`None` or the list), the second the printed lines. -/
def load_portfolio (fs : String → Option (List PortfolioEntry)) (portfolio_file : String) :
    Option (List PortfolioEntry) × List String :=
  match fs portfolio_file with
  | some portfolio => (some portfolio, ["Portfolio loaded from " ++ portfolio_file])
  | none => (none, ["Couldn't load the portfolio. No such file: " ++ portfolio_file])

/-- The per-ticker loop of `PortfolioManager.check_portfolio`, with the
stock API being a `YFActions`-style object: thread the API state through
the entries in file order, concatenating the printed output. -/
def portfolio_loop (st : BaseStockAPIState) (provider : String → RawActionTable)
    (entries : List PortfolioEntry) : BaseStockAPIState × List Output :=
  entries.foldl
    (fun acc e =>
      let res := fetch_and_format_stock_info acc.1 provider e.ticker
      (res.1, acc.2 ++ res.2))
    (st, [])

/-- `PortfolioManager.check_portfolio`: load the portfolio, then run
`for stock in portfolio: self.stock_api.fetch_and_format_stock_info(...)`.
When `load_portfolio` returned `None`, the `for` statement raises
`TypeError: 'NoneType' object is not iterable`, modelled as `Except.error`;
otherwise the loop's printed output is returned. -/
def check_portfolio (fs : String → Option (List PortfolioEntry)) (portfolio_file : String)
    (st : BaseStockAPIState) (provider : String → RawActionTable) :
    Except String (BaseStockAPIState × List Output) :=
  match (load_portfolio fs portfolio_file).1 with
  | none => Except.error "TypeError: 'NoneType' object is not iterable"
  | some portfolio => Except.ok (portfolio_loop st provider portfolio)

/-- The environment variable read by `OpenAIAPI.load_api_key`. -/
def API_KEY_ENV_VAR : String := "OPENAI_API_KEY"

/-- `OpenAIAPI.load_api_key`: `os.getenv` over an abstract process
environment; the `assert` raises `AssertionError` when the variable is
absent, otherwise the key is stored (returned here) as `openai.api_key`. -/
def load_api_key (env : String → Option String) : Except String String :=
  match env API_KEY_ENV_VAR with
  | some api_key => Except.ok api_key
  | none => Except.error ("Missing " ++ API_KEY_ENV_VAR ++ " in environment variables")

/-- One `setdefault`/`append` step, as a fold step over key–record pairs. -/
def stepSD (m : OrgActions) (p : String × ActionRecord) : OrgActions :=
  setdefaultAppend m p.1 p.2

theorem flattenTagged_nil : flattenTagged [] = [] := rfl

theorem flattenTagged_cons (kr : String × List ActionRecord) (m : OrgActions) :
    flattenTagged (kr :: m) = kr.2.map (fun r => (kr.1, r)) ++ flattenTagged m := by
  simp [flattenTagged]

theorem foldl_insert_filterMap (d : String) (l : List (String × Value)) (m : OrgActions) :
    l.foldl
      (fun m cv => if cv.2.truthy then setdefaultAppend m cv.1 ⟨d, cv.2⟩ else m) m
    = (l.filterMap
        (fun cv => if cv.2.truthy then some (cv.1, (⟨d, cv.2⟩ : ActionRecord)) else none)).foldl
        stepSD m := by
  induction l generalizing m with
  | nil => rfl
  | cons cv l ih =>
    by_cases h : cv.2.truthy <;> simp [h, List.filterMap_cons, ih, stepSD]

theorem insertRow_eq (m : OrgActions) (cols : List String) (row : Date × List Value) :
    insertRow m cols row = (rowPairs cols row).foldl stepSD m := by
  simpa [insertRow, rowPairs] using
    foldl_insert_filterMap row.1.strftimeYMD (cols.zip row.2) m

theorem buildOrganized_eq (t : RawActionTable) :
    buildOrganized t = (tablePairs t).foldl stepSD [] := by
  simp [buildOrganized, tablePairs, List.foldl_flatten, List.foldl_map, insertRow_eq]

theorem flattenTagged_setdefaultAppend (m : OrgActions) (k : String) (r : ActionRecord) :
    (flattenTagged (setdefaultAppend m k r)).Perm (flattenTagged m ++ [(k, r)]) := by
  induction m with
  | nil => simp [setdefaultAppend, flattenTagged]
  | cons kr rest ih =>
    obtain ⟨k', rs⟩ := kr
    by_cases h : k' = k
    · subst h
      rw [setdefaultAppend, if_pos rfl, flattenTagged_cons, flattenTagged_cons]
      simp only [List.map_append, List.map_cons, List.map_nil, List.append_assoc]
      exact (List.Perm.append_left _ (List.perm_append_comm))
    · rw [setdefaultAppend, if_neg h, flattenTagged_cons, flattenTagged_cons]
      simpa [List.append_assoc] using List.Perm.append_left (rs.map (fun r' => (k', r'))) ih

theorem foldl_stepSD_perm (ps : List (String × ActionRecord)) (m : OrgActions) :
    (flattenTagged (ps.foldl stepSD m)).Perm (flattenTagged m ++ ps) := by
  induction ps generalizing m with
  | nil => simp
  | cons p ps ih =>
    refine (ih (stepSD m p)).trans ?_
    refine ((flattenTagged_setdefaultAppend m p.1 p.2).append_right ps).trans ?_
    rw [List.append_assoc, List.singleton_append]

theorem flattenTagged_buildOrganized_perm (t : RawActionTable) :
    (flattenTagged (buildOrganized t)).Perm (tablePairs t) := by
  rw [buildOrganized_eq]
  simpa [flattenTagged_nil] using foldl_stepSD_perm (tablePairs t) []

theorem length_filterMap_ite {α β : Type} (p : α → Bool) (g : α → β) (l : List α) :
    (l.filterMap (fun a => if p a then some (g a) else none)).length
      = (l.filter p).length := by
  induction l with
  | nil => rfl
  | cons a l ih => by_cases h : p a <;> simp [h, ih]

theorem length_rowPairs (cols : List String) (row : Date × List Value) :
    (rowPairs cols row).length
      = ((cols.zip row.2).filter (fun cv => cv.2.truthy)).length := by
  simpa [rowPairs] using
    length_filterMap_ite (fun cv : String × Value => cv.2.truthy)
      (fun cv => (cv.1, (⟨row.1.strftimeYMD, cv.2⟩ : ActionRecord))) (cols.zip row.2)

theorem length_tablePairs (t : RawActionTable) :
    (tablePairs t).length = numTruthyCells t := by
  simp only [tablePairs, numTruthyCells, List.length_flatten, List.map_map]
  exact congrArg List.sum
    (List.map_eq_map_iff.mpr fun row _ => length_rowPairs t.columns row)

theorem tablePairs_eq_nil_of_isEmpty (t : RawActionTable) (h : t.isEmpty = true) :
    tablePairs t = [] := by
  rcases Bool.or_eq_true_iff.mp h with h' | h'
  · simp [tablePairs, List.isEmpty_iff.mp h']
  · simp only [tablePairs, List.flatten_eq_nil_iff]
    intro l hl
    rcases List.mem_map.mp hl with ⟨row, _, rfl⟩
    simp [rowPairs, List.isEmpty_iff.mp h']

theorem mem_dedupFirst (x : String) (l : List String) : x ∈ dedupFirst l ↔ x ∈ l := by
  induction l with
  | nil => simp [dedupFirst]
  | cons k rest ih =>
    by_cases hx : x = k <;> simp [dedupFirst, List.mem_filter, ih, hx]

theorem nodup_dedupFirst (l : List String) : (dedupFirst l).Nodup := by
  induction l with
  | nil => simp [dedupFirst]
  | cons k rest ih =>
    simp only [dedupFirst, List.nodup_cons]
    exact ⟨fun h => by simpa using (List.mem_filter.mp h).2, ih.filter _⟩

theorem dedupFirst_append_singleton (l : List String) (k : String) :
    dedupFirst (l ++ [k]) = if k ∈ l then dedupFirst l else dedupFirst l ++ [k] := by
  induction l with
  | nil => simp [dedupFirst]
  | cons a l ih =>
    by_cases hk : k ∈ l
    · simp [dedupFirst, ih, hk]
    · by_cases ha : k = a
      · subst ha
        simp [dedupFirst, ih, hk, List.filter_append]
      · simp [dedupFirst, ih, hk, ha, List.filter_append, Ne.symm ha]

theorem setdefaultAppend_of_not_mem (m : OrgActions) (k : String) (r : ActionRecord)
    (h : ∀ p ∈ m, p.1 ≠ k) : setdefaultAppend m k r = m ++ [(k, [r])] := by
  induction m with
  | nil => rfl
  | cons kr rest ih =>
    obtain ⟨k', rs⟩ := kr
    have hk' : k' ≠ k := h (k', rs) (List.mem_cons_self _ _)
    simp only [setdefaultAppend, if_neg hk', List.cons_append, List.cons.injEq, true_and]
    exact ih fun p hp => h p (List.mem_cons_of_mem _ hp)

theorem setdefaultAppend_map_of_mem (L : List String) (g : String → List ActionRecord)
    (k : String) (r : ActionRecord) (hnd : L.Nodup) (hk : k ∈ L) :
    setdefaultAppend (L.map (fun x => (x, g x))) k r
      = L.map (fun x => (x, if x = k then g x ++ [r] else g x)) := by
  induction L with
  | nil => cases hk
  | cons a L ih =>
    by_cases ha : a = k
    · subst ha
      have haL : a ∉ L := (List.nodup_cons.mp hnd).1
      have hmap : List.map (fun x => (x, g x)) L
          = List.map (fun x => (x, if x = a then g x ++ [r] else g x)) L :=
        List.map_eq_map_iff.mpr fun x hx => by
          simp [ne_of_mem_of_not_mem hx haL]
      simp [List.map_cons, setdefaultAppend, hmap]
    · have hkL : k ∈ L := by
        rcases List.mem_cons.mp hk with h | h
        · exact absurd h.symm ha
        · exact h
      simp only [List.map_cons, setdefaultAppend, if_neg ha, List.cons.injEq, if_neg ha,
        true_and]
      exact ih (List.nodup_cons.mp hnd).2 hkL

theorem filter_key_append_singleton (ps : List (String × ActionRecord)) (k k' : String)
    (r : ActionRecord) :
    (ps ++ [(k, r)]).filter (fun p => p.1 = k')
      = ps.filter (fun p => p.1 = k') ++ if k' = k then [(k, r)] else [] := by
  rw [List.filter_append]
  by_cases h : k' = k
  · subst h; simp
  · simp [Ne.symm h, h]

theorem groupStable_append_singleton (ps : List (String × ActionRecord)) (k : String)
    (r : ActionRecord) :
    groupStable (ps ++ [(k, r)]) = setdefaultAppend (groupStable ps) k r := by
  have hkeys : (ps ++ [(k, r)]).map Prod.fst = ps.map Prod.fst ++ [k] := by simp
  by_cases hmem : k ∈ ps.map Prod.fst
  · have hded : dedupFirst ((ps ++ [(k, r)]).map Prod.fst) = dedupFirst (ps.map Prod.fst) := by
      rw [hkeys, dedupFirst_append_singleton, if_pos hmem]
    rw [groupStable, hded, groupStable,
      setdefaultAppend_map_of_mem _ _ k r (nodup_dedupFirst _)
        ((mem_dedupFirst _ _).mpr hmem)]
    refine List.map_eq_map_iff.mpr fun k' _ => ?_
    rw [filter_key_append_singleton]
    by_cases h : k' = k <;> simp [h]
  · have hded : dedupFirst ((ps ++ [(k, r)]).map Prod.fst)
        = dedupFirst (ps.map Prod.fst) ++ [k] := by
      rw [hkeys, dedupFirst_append_singleton, if_neg hmem]
    have hnotkey : ∀ p ∈ groupStable ps, p.1 ≠ k := by
      intro p hp
      rcases List.mem_map.mp hp with ⟨k', hk', rfl⟩
      intro hkk
      exact hmem ((mem_dedupFirst _ _).mp (hkk ▸ hk'))
    rw [groupStable, hded, List.map_append,
      setdefaultAppend_of_not_mem _ _ _ hnotkey, groupStable]
    congr 1
    · refine List.map_eq_map_iff.mpr fun k' hk' => ?_
      rw [filter_key_append_singleton]
      have hne : k' ≠ k := fun h => hmem ((mem_dedupFirst _ _).mp (h ▸ hk'))
      simp [hne]
    · have hfil : ps.filter (fun p => p.1 = k) = [] :=
        List.filter_eq_nil_iff.mpr fun p hp => by
          simp only [decide_eq_true_eq]
          intro h
          exact hmem (List.mem_map.mpr ⟨p, hp, h⟩)
      simp [filter_key_append_singleton, hfil]

theorem foldl_stepSD_groupStable (ps : List (String × ActionRecord)) :
    ps.foldl stepSD [] = groupStable ps := by
  induction ps using List.reverseRecOn with
  | nil => rfl
  | append_singleton ps p ih =>
    obtain ⟨k, r⟩ := p
    rw [List.foldl_append, List.foldl_cons, List.foldl_nil, ih,
      groupStable_append_singleton]
    rfl

theorem organized_getD_eq_groupStable (st : BaseStockAPIState) (t : RawActionTable) :
    ((get_organized_stock_actions st t).2).getD [] = groupStable (tablePairs t) := by
  have hbg : buildOrganized t = groupStable (tablePairs t) := by
    rw [buildOrganized_eq, foldl_stepSD_groupStable]
  by_cases h : t.isEmpty
  · rw [tablePairs_eq_nil_of_isEmpty t h]
    simp [get_organized_stock_actions, h, groupStable, dedupFirst]
  · by_cases hm : (buildOrganized t).isEmpty
    · have hnil : buildOrganized t = [] := List.isEmpty_iff.mp hm
      simp [get_organized_stock_actions, h, hm, ← hbg, hnil]
    · have hne : groupStable (tablePairs t) ≠ [] := by
        rw [← hbg]
        exact fun hh => hm (by simp [hh])
      simp [get_organized_stock_actions, h, hbg, hne]

/-- The rows of the records DataFrame, group after group in dict order. -/
def flattenRows (m : OrgActions) : List RecordRow :=
  (m.map (fun kr => kr.2.map (fun r => (⟨r.date, r.value, kr.1⟩ : RecordRow)))).flatten

theorem foldl_concat_rows (m : OrgActions) (init : List RecordRow) :
    m.foldl (fun acc kr => acc ++ kr.2.map (fun r => ⟨r.date, r.value, kr.1⟩)) init
      = init ++ flattenRows m := by
  induction m generalizing init with
  | nil => simp [flattenRows]
  | cons kr rest ih => simp [flattenRows, ih]

theorem create_stock_records_df_flattens (oa : OrgActions) (cts : Option String)
    (init : List RecordRow) :
    create_stock_records_df ⟨some oa, cts⟩ init = init ++ flattenRows oa := by
  simp [create_stock_records_df, foldl_concat_rows]

theorem dedupFirst_eq_nil_iff (l : List String) : dedupFirst l = [] ↔ l = [] := by
  cases l <;> simp [dedupFirst]

theorem groupStable_eq_nil_iff (ps : List (String × ActionRecord)) :
    groupStable ps = [] ↔ ps = [] := by
  simp [groupStable, List.map_eq_nil_iff, dedupFirst_eq_nil_iff]

theorem tablePairs_eq_nil_of_all_falsy (t : RawActionTable)
    (h : ∀ row ∈ t.rows, ∀ cv ∈ t.columns.zip row.2, cv.2.truthy = false) :
    tablePairs t = [] := by
  simp only [tablePairs, List.flatten_eq_nil_iff]
  intro l hl
  rcases List.mem_map.mp hl with ⟨row, hrow, rfl⟩
  exact List.filterMap_eq_nil_iff.mpr fun cv hcv => by simp [h row hrow cv hcv]

/-- C1: for every raw action table (whatever the prior object state), the
normalizer produces exactly one output record per truthy cell: tagging each
organized record with its group's action type gives a permutation of the
truthy cells of the table, each cell contributing its column name as the
type, its row index formatted `YYYY-MM-DD` as the date, and the cell value;
consequently the total number of records equals the count of truthy cells. -/
theorem normalizer_one_record_per_truthy_cell (st : BaseStockAPIState) (t : RawActionTable) :
    (flattenTagged (((get_organized_stock_actions st t).2).getD [])).Perm (tablePairs t) ∧
    (flattenTagged (((get_organized_stock_actions st t).2).getD [])).length
      = numTruthyCells t := by
  have hperm :
      (flattenTagged (((get_organized_stock_actions st t).2).getD [])).Perm (tablePairs t) := by
    rw [organized_getD_eq_groupStable, ← foldl_stepSD_groupStable]
    simpa [flattenTagged_nil] using foldl_stepSD_perm (tablePairs t) []
  exact ⟨hperm, by rw [hperm.length_eq, length_tablePairs]⟩

/-- C4: the normalizer returns no records (`None`) for a table with no rows
at all, and for a table in which every cell is falsy. -/
theorem normalizer_empty_on_no_rows_or_all_falsy (st : BaseStockAPIState) (t : RawActionTable)
    (h : t.rows = [] ∨ ∀ row ∈ t.rows, ∀ cv ∈ t.columns.zip row.2, cv.2.truthy = false) :
    (get_organized_stock_actions st t).2 = none := by
  rcases h with h | h
  · have hE : t.isEmpty = true := by simp [RawActionTable.isEmpty, h]
    simp [get_organized_stock_actions, hE]
  · have htp : tablePairs t = [] := tablePairs_eq_nil_of_all_falsy t h
    by_cases hE : t.isEmpty
    · simp [get_organized_stock_actions, hE]
    · have hb : buildOrganized t = [] := by
        rw [buildOrganized_eq, htp]
        rfl
      simp [get_organized_stock_actions, hE, hb]

/-- A one-row table whose single cell is the falsy value `0`. -/
def tAllFalsy : RawActionTable :=
  { columns := ["Dividends"], rows := [(⟨2024, 1, 5⟩, [Value.vnum 0])] }

/-- Witness for C4 at a concrete all-falsy table. -/
theorem normalizer_empty_on_no_rows_or_all_falsy_witness :
    (tAllFalsy.rows = [] ∨
      ∀ row ∈ tAllFalsy.rows, ∀ cv ∈ tAllFalsy.columns.zip row.2, cv.2.truthy = false) ∧
    (get_organized_stock_actions initBaseStockAPI tAllFalsy).2 = none :=
  ⟨Or.inr (by decide),
   normalizer_empty_on_no_rows_or_all_falsy initBaseStockAPI tAllFalsy (Or.inr (by decide))⟩

/-- C5: the normalizer's output is exactly the stable grouping of the
table's truthy cells — one group per action type in the order the types are
first encountered during the row-major scan, each group's records in scan
(row) order — and `create_stock_records_df` concatenates those groups'
rows in that group order. -/
theorem normalizer_output_grouped_by_first_encounter (st : BaseStockAPIState)
    (t : RawActionTable) :
    ((get_organized_stock_actions st t).2).getD [] = groupStable (tablePairs t) ∧
    ∀ (oa : OrgActions) (cts : Option String),
      create_stock_records_df ⟨some oa, cts⟩ [] = flattenRows oa :=
  ⟨organized_getD_eq_groupStable st t,
   fun oa cts => by simpa using create_stock_records_df_flattens oa cts []⟩

/-- C8: calling the normalizer twice on the same raw table yields the same
result, and in fact the returned value does not depend on the object state
mutated by the first call at all. -/
theorem normalizer_idempotent (st : BaseStockAPIState) (t : RawActionTable) :
    (get_organized_stock_actions ((get_organized_stock_actions st t).1) t).2
      = (get_organized_stock_actions st t).2 ∧
    ∀ st₁ st₂ : BaseStockAPIState,
      (get_organized_stock_actions st₁ t).2 = (get_organized_stock_actions st₂ t).2 := by
  have key : ∀ st₁ st₂ : BaseStockAPIState,
      (get_organized_stock_actions st₁ t).2 = (get_organized_stock_actions st₂ t).2 := by
    intro st₁ st₂
    by_cases h : t.isEmpty <;> simp [get_organized_stock_actions, h]
  exact ⟨key _ _, key⟩

/-- C9: the normalizer returns `None` exactly when the table has no truthy
cell (the no-rows case included), and a non-`None` result always holds at
least one record. -/
theorem normalizer_none_iff_no_truthy_cell (st : BaseStockAPIState) (t : RawActionTable) :
    ((get_organized_stock_actions st t).2 = none ↔ tablePairs t = []) ∧
    ∀ m : OrgActions, (get_organized_stock_actions st t).2 = some m → flattenTagged m ≠ [] := by
  have hbg : buildOrganized t = groupStable (tablePairs t) := by
    rw [buildOrganized_eq, foldl_stepSD_groupStable]
  constructor
  · by_cases hE : t.isEmpty
    · simp [get_organized_stock_actions, hE, tablePairs_eq_nil_of_isEmpty t hE]
    · by_cases hm : (buildOrganized t).isEmpty
      · have h1 : tablePairs t = [] := by
          have h2 := List.isEmpty_iff.mp hm
          rw [hbg] at h2
          exact (groupStable_eq_nil_iff _).mp h2
        simp [get_organized_stock_actions, hE, hm, h1]
      · have h1 : tablePairs t ≠ [] := by
          intro hh
          apply hm
          rw [hbg, hh]
          rfl
        simp [get_organized_stock_actions, hE, hm, h1]
  · intro m hm hflat
    by_cases hE : t.isEmpty
    · simp [get_organized_stock_actions, hE] at hm
    · by_cases hbm : (buildOrganized t).isEmpty
      · simp [get_organized_stock_actions, hE, hbm] at hm
      · have hmeq : buildOrganized t = m := by
          simpa [get_organized_stock_actions, hE, hbm] using hm
        have hp : (tablePairs t).Perm ([] : List (String × ActionRecord)) := by
          have := flattenTagged_buildOrganized_perm t
          rw [hmeq, hflat] at this
          exact this.symm
        have h1 : tablePairs t = [] := List.Perm.eq_nil hp
        apply hbm
        rw [hbg, h1]
        rfl

/-- A one-row table with one truthy dividend cell and one falsy cell. -/
def tOneDiv : RawActionTable :=
  { columns := ["Dividends", "Stock Splits"],
    rows := [(⟨2024, 1, 5⟩, [Value.vnum (mkRat 24 100), Value.vnum 0])] }

/-- Witness for C9: at a concrete table with one truthy cell the result is
a one-group dict, and its flattening is non-empty. -/
theorem normalizer_none_iff_no_truthy_cell_witness :
    (get_organized_stock_actions initBaseStockAPI tOneDiv).2
        = some [("Dividends", [⟨"2024-01-05", Value.vnum (mkRat 24 100)⟩])] ∧
    flattenTagged [("Dividends", [⟨"2024-01-05", Value.vnum (mkRat 24 100)⟩])] ≠ [] := by
  have h : (get_organized_stock_actions initBaseStockAPI tOneDiv).2
      = some [("Dividends", [⟨"2024-01-05", Value.vnum (mkRat 24 100)⟩])] := by decide
  exact ⟨h, (normalizer_none_iff_no_truthy_cell initBaseStockAPI tOneDiv).2 _ h⟩

/-- C2 (code bug): for a file path naming no existing file, the loader
prints the failure message and returns Python `None` — not an empty
sequence of entries. -/
theorem load_portfolio_missing_file_returns_none :
    (load_portfolio (fun _ => none) "portfolio.json").1 = none ∧
    (load_portfolio (fun _ => none) "portfolio.json").1 ≠ some ([] : List PortfolioEntry) ∧
    (load_portfolio (fun _ => none) "portfolio.json").2
      = ["Couldn't load the portfolio. No such file: portfolio.json"] :=
  ⟨rfl, by simp [load_portfolio], rfl⟩

/-- C3 (code bug): with the portfolio file missing, `check_portfolio` gets
`None` from the loader and its `for` statement raises `TypeError` instead
of recovering with zero iterations. -/
theorem check_portfolio_missing_file_raises (st : BaseStockAPIState)
    (provider : String → RawActionTable) :
    check_portfolio (fun _ => none) "portfolio.json" st provider
      = Except.error "TypeError: 'NoneType' object is not iterable" := rfl

/-- C7: initialization fails with the assertion message exactly when the
API-key environment variable is absent from the process environment, and
succeeds with the key when it is present. -/
theorem load_api_key_asserts_on_missing_env (env : String → Option String) :
    (env API_KEY_ENV_VAR = none →
      load_api_key env
        = Except.error ("Missing " ++ API_KEY_ENV_VAR ++ " in environment variables")) ∧
    ∀ k, env API_KEY_ENV_VAR = some k → load_api_key env = Except.ok k := by
  constructor
  · intro h
    simp [load_api_key, h]
  · intro k h
    simp [load_api_key, h]

/-- Witness for C7: a concrete empty environment fails the assertion and a
concrete environment holding the key succeeds. -/
theorem load_api_key_asserts_on_missing_env_witness :
    load_api_key (fun _ => none)
      = Except.error ("Missing " ++ API_KEY_ENV_VAR ++ " in environment variables") ∧
    load_api_key (fun _ => some "sk-test") = Except.ok "sk-test" :=
  ⟨(load_api_key_asserts_on_missing_env (fun _ => none)).1 rfl,
   (load_api_key_asserts_on_missing_env (fun _ => some "sk-test")).2 "sk-test" rfl⟩

/-- The mocked provider response for AAPL: a single truthy dividend cell
on 2024-01-05 of value 0.24. -/
def tAAPL : RawActionTable :=
  { columns := ["Dividends"], rows := [(⟨2024, 1, 5⟩, [Value.vnum (mkRat 24 100)])] }

/-- The mocked provider response for MSFT: a table with no truthy cells. -/
def tMSFT : RawActionTable :=
  { columns := ["Dividends"], rows := [(⟨2024, 2, 1⟩, [Value.vnum 0])] }

/-- The mocked market-data provider of the C6 scenario. -/
def provider6 : String → RawActionTable :=
  fun sym => if sym = "AAPL" then tAAPL else tMSFT

/-- The portfolio file system of the C6 scenario. -/
def fs6 : String → Option (List PortfolioEntry) :=
  fun p => if p = "portfolio.json" then some [⟨"AAPL"⟩, ⟨"MSFT"⟩] else none

/-- C6: on the two-entry portfolio (AAPL then MSFT) with the mocked
provider, the run processes the entries in file order and prints the AAPL
header followed by the one-row table (columns in `type, date, value`
order), then the MSFT header followed by the no-actions message. -/
theorem run_prints_table_then_no_actions :
    check_portfolio fs6 "portfolio.json" initBaseStockAPI provider6
      = Except.ok (portfolio_loop initBaseStockAPI provider6 [⟨"AAPL"⟩, ⟨"MSFT"⟩]) ∧
    (portfolio_loop initBaseStockAPI provider6 [⟨"AAPL"⟩, ⟨"MSFT"⟩]).2
      = [Output.line "Ticker: AAPL",
         Output.table [("Dividends", "2024-01-05", Value.vnum (mkRat 24 100))],
         Output.line "Ticker: MSFT",
         Output.line "No actions found for ticker MSFT."] :=
  ⟨rfl, by decide⟩

/-- C10: `current_ticker_symbol` starts as `None`, no operation of the
stock API ever assigns it, the conditional `Ticker:` line inside
`print_formatted_stock_actions` is therefore never emitted (with the field
`None` the printed output is exactly the table), and the per-ticker header
is the one printed by `fetch_and_format_stock_info`. -/
theorem current_ticker_symbol_never_set :
    initBaseStockAPI.current_ticker_symbol = none ∧
    (∀ (st : BaseStockAPIState) (t : RawActionTable),
      ((get_organized_stock_actions st t).1).current_ticker_symbol
        = st.current_ticker_symbol) ∧
    (∀ (st : BaseStockAPIState) (t : RawActionTable) (sym : String),
      ((handle_stock_actions st t sym).1).current_ticker_symbol
        = st.current_ticker_symbol) ∧
    (∀ (st : BaseStockAPIState) (p : String → RawActionTable) (sym : String),
      ((fetch_and_format_stock_info st p sym).1).current_ticker_symbol
        = st.current_ticker_symbol) ∧
    (∀ (own yfst : BaseStockAPIState) (p : String → RawActionTable) (sym : String),
      (yfinance_fetch_and_format_stock_info own yfst p sym).1.1.current_ticker_symbol
          = own.current_ticker_symbol ∧
      (yfinance_fetch_and_format_stock_info own yfst p sym).1.2.current_ticker_symbol
          = yfst.current_ticker_symbol) ∧
    (∀ (oa : Option OrgActions) (df : List RecordRow),
      print_formatted_stock_actions ⟨oa, none⟩ df
        = [Output.table (df.map (fun r => (r.type, r.date, r.value)))]) ∧
    (∀ (st : BaseStockAPIState) (p : String → RawActionTable) (sym : String),
      ∃ rest, (fetch_and_format_stock_info st p sym).2
        = Output.line ("Ticker: " ++ sym) :: rest) := by
  have hget : ∀ (st : BaseStockAPIState) (t : RawActionTable),
      ((get_organized_stock_actions st t).1).current_ticker_symbol
        = st.current_ticker_symbol := by
    intro st t
    by_cases h : t.isEmpty <;> simp [get_organized_stock_actions, h]
  have hhandle : ∀ (st : BaseStockAPIState) (t : RawActionTable) (sym : String),
      (handle_stock_actions st t sym).1 = (get_organized_stock_actions st t).1 := by
    intro st t sym
    by_cases h : orgTruthy (get_organized_stock_actions st t).2
    · by_cases h2 : (create_stock_records_df (get_organized_stock_actions st t).1 []).isEmpty <;>
        simp [handle_stock_actions, h, h2]
    · simp [handle_stock_actions, h]
  have hfetch : ∀ (st : BaseStockAPIState) (p : String → RawActionTable) (sym : String),
      (fetch_and_format_stock_info st p sym).1 = (handle_stock_actions st (p sym) sym).1 :=
    fun st p sym => rfl
  refine ⟨rfl, hget, ?_, ?_, ?_, ?_, ?_⟩
  · intro st t sym
    rw [hhandle st t sym, hget]
  · intro st p sym
    rw [hfetch st p sym, hhandle, hget]
  · intro own yfst p sym
    exact ⟨rfl, by
      show ((fetch_and_format_stock_info yfst p sym).1).current_ticker_symbol
          = yfst.current_ticker_symbol
      rw [hfetch yfst p sym, hhandle, hget]⟩
  · intro oa df
    simp [print_formatted_stock_actions]
  · intro st p sym
    exact ⟨(handle_stock_actions st (p sym) sym).2, rfl⟩
